import Mathlib

/-!
# ADIOS2: the naive SSC reader, the staging read test and the ZFP operator

A shallow embedding of

* `source/adios2/engine/ssc/SscReaderNaive.cpp` (the step operations of the
  naive SSC reader),
* `testing/adios2/engine/staging-common/TestDistributionRead.cpp` (the read
  loop, the selection arithmetic and the expected-step tables), and
* `source/adios2/operator/compress/CompressZFP.h` (the operator interface),

followed by the properties of the design document that are stated over them.
-/

namespace adios2

/-! ## Types of the engine interface -/

/-- Modelled from the spec: the status a BeginStep call returns,
`StepStatus{OK, NotReady, EndOfStream}`.  The enumeration is declared in
ADIOSTypes.h, which is not among the sources. -/
inductive StepStatus where
  | OK
  | NotReady
  | EndOfStream
  deriving DecidableEq, Repr

/-- Modelled from the spec: the mode argument of BeginStep.  Its enumerators are
declared in ADIOSTypes.h, which is not among the sources; no step operation of
the naive reader inspects it. -/
inductive StepMode where
  | Append
  | Update
  | Read
  deriving DecidableEq, Repr

/-- Modelled from the spec: a PendingGet, "a queued request correlating a
(Variable, Selection or full-shape, destination buffer)".  The queue itself is a
member of SscReaderBase, which is not among the sources. -/
structure PendingGet where
  name : String
  start : List Nat
  count : List Nat
  destination : Nat
  deriving DecidableEq, Repr

/-- Two's-complement wrap of an integer into the range of `int64_t`. -/
def wrapInt64 (x : Int) : Int :=
  (x + 9223372036854775808) % 18446744073709551616 - 9223372036854775808

/-- Conversion of a signed integer to `size_t` (64 bits). -/
def toSizeT (x : Int) : Nat :=
  (x % 18446744073709551616).toNat

/-- Modelled from the spec: the state of an `SscReaderNaive` object.  Its data
members are declared in SscReaderBase.h, which is not among the sources.
`m_CurrentStep` is the step counter that BeginStep increments and CurrentStep
returns as a `size_t`; it is held as a signed 64-bit integer, so that its value
before the first step is representable.  `m_Deferred` is the Deferred Get Queue
and `m_Buffers` are the destination buffers of the design document. -/
structure SscReaderNaive where
  m_CurrentStep : Int
  m_Deferred : List PendingGet
  m_Buffers : List (List Nat)
  deriving DecidableEq, Repr

namespace SscReaderNaive

/-- Modelled from the spec: the state right after construction.  The constructor
of SscReaderNaive.cpp only forwards its arguments to SscReaderBase, and the
member initialiser of `m_CurrentStep` is in SscReaderBase.h, which is not among
the sources.  BeginStep increments the counter before the step is observed and
the first observed step is 0, so a fresh reader holds -1.  Nothing is queued. -/
def fresh : SscReaderNaive :=
  { m_CurrentStep := -1, m_Deferred := [], m_Buffers := [] }

/-- `StepStatus SscReaderNaive::BeginStep(stepMode, timeoutSeconds, readerLocked)`:
`++m_CurrentStep; return StepStatus::OK;`. -/
def BeginStep (self : SscReaderNaive) (_stepMode : StepMode) (_timeoutSeconds : Float)
    (_readerLocked : Bool) : StepStatus × SscReaderNaive :=
  (StepStatus.OK, { self with m_CurrentStep := wrapInt64 (self.m_CurrentStep + 1) })

/-- `size_t SscReaderNaive::CurrentStep() { return m_CurrentStep; }`. -/
def CurrentStep (self : SscReaderNaive) : Nat :=
  toSizeT self.m_CurrentStep

/-- `void SscReaderNaive::EndStep(const bool readerLocked) {}`. -/
def EndStep (self : SscReaderNaive) (_readerLocked : Bool) : SscReaderNaive :=
  self

/-- `void SscReaderNaive::PerformGets() {}`. -/
def PerformGets (self : SscReaderNaive) : SscReaderNaive :=
  self

/-- `void SscReaderNaive::Close(const int transportIndex) {}`. -/
def Close (self : SscReaderNaive) (_transportIndex : Int) : SscReaderNaive :=
  self

end SscReaderNaive

/-! ## Call sequences -/

/-- One call of the step interface, with its arguments. -/
inductive Call where
  | BeginStep (stepMode : StepMode) (timeoutSeconds : Float) (readerLocked : Bool)
  | CurrentStep
  | PerformGets
  | EndStep (readerLocked : Bool)
  | Close (transportIndex : Int)

/-- What a call hands back to the caller. -/
inductive Response where
  | status (s : StepStatus)
  | step (n : Nat)
  | done
  deriving DecidableEq, Repr

/-- Perform one call on a reader. -/
def SscReaderNaive.call (self : SscReaderNaive) : Call → Response × SscReaderNaive
  | Call.BeginStep m t l => (Response.status (self.BeginStep m t l).1, (self.BeginStep m t l).2)
  | Call.CurrentStep => (Response.step self.CurrentStep, self)
  | Call.PerformGets => (Response.done, self.PerformGets)
  | Call.EndStep l => (Response.done, self.EndStep l)
  | Call.Close i => (Response.done, self.Close i)

/-- Perform a sequence of calls, collecting the responses in call order. -/
def SscReaderNaive.run (self : SscReaderNaive) : List Call → List Response × SscReaderNaive
  | [] => ([], self)
  | c :: cs =>
    let r := self.call c
    let rest := SscReaderNaive.run r.2 cs
    (r.1 :: rest.1, rest.2)

/-- The step values among a list of responses, in order. -/
def observedSteps : List Response → List Nat
  | [] => []
  | Response.step n :: rs => n :: observedSteps rs
  | _ :: rs => observedSteps rs

/-- The statuses among a list of responses, in order. -/
def observedStatuses : List Response → List StepStatus
  | [] => []
  | Response.status s :: rs => s :: observedStatuses rs
  | _ :: rs => observedStatuses rs

/-- Arguments of one BeginStep/EndStep pair. -/
structure StepArgs where
  stepMode : StepMode
  timeoutSeconds : Float
  beginLocked : Bool
  endLocked : Bool

/-- The calls of a sequence of steps: each step is a BeginStep, a CurrentStep
inside the step, and the closing EndStep. -/
def stepPairs : List StepArgs → List Call
  | [] => []
  | a :: as =>
    Call.BeginStep a.stepMode a.timeoutSeconds a.beginLocked :: Call.CurrentStep ::
      Call.EndStep a.endLocked :: stepPairs as

/-- The value of CurrentStep() right after each BeginStep of a call sequence. -/
def stepsAfterBegin (self : SscReaderNaive) : List Call → List Nat
  | [] => []
  | Call.BeginStep m t l :: cs =>
    (self.BeginStep m t l).2.CurrentStep :: stepsAfterBegin (self.BeginStep m t l).2 cs
  | c :: cs => stepsAfterBegin (self.call c).2 cs

/-- Number of BeginStep calls in a call sequence. -/
def beginCount : List Call → Nat
  | [] => 0
  | Call.BeginStep _ _ _ :: cs => beginCount cs + 1
  | _ :: cs => beginCount cs

/-- Arguments of the calls the test makes, `engine1.BeginStep()` and
`engine1.EndStep()`: read mode, a timeout of -1 (wait without limit), selections
not locked. -/
def defaultStep : StepArgs :=
  { stepMode := StepMode.Read, timeoutSeconds := -1.0, beginLocked := false, endLocked := false }

/-- Protocol states of the design document, section 4.1 (after the engine has
been opened). -/
inductive Phase where
  | Ready
  | StepActive
  | Closed
  deriving DecidableEq, Repr

/-- Protocol state machine in the words of the design document: a BeginStep that
returns OK activates a step from Ready, EndStep ends the active step, Close
closes the engine, and nothing leaves Closed. -/
def Phase.next : Phase → Call → Response → Phase
  | Phase.Closed, _, _ => Phase.Closed
  | _, Call.Close _, _ => Phase.Closed
  | Phase.Ready, Call.BeginStep _ _ _, Response.status StepStatus.OK => Phase.StepActive
  | Phase.StepActive, Call.EndStep _, _ => Phase.Ready
  | p, _, _ => p

/-- The read loop of the test,
`while (engine1.BeginStep() == adios2::StepStatus::OK) { ... engine1.EndStep(); ... total_steps++; }`,
run on the naive reader for at most `fuel` iterations.  The result is
`total_steps` once the loop has ended and `none` while it is still running. -/
def readLoop (fuel : Nat) (self : SscReaderNaive) (total_steps : Nat) : Option Nat :=
  match fuel with
  | 0 => none
  | fuel + 1 =>
    if (self.BeginStep StepMode.Read (-1.0) false).1 = StepStatus.OK then
      readLoop fuel ((self.BeginStep StepMode.Read (-1.0) false).2.EndStep false) (total_steps + 1)
    else some total_steps

/-- The selection `(start, count)` a rank of the test computes (lines 99-109):
`myStart = (writerSize * Nx / mpiSize) * mpiRank`,
`myLength = (writerSize * Nx + mpiSize - 1) / mpiSize`, and when
`myStart + myLength > writerSize * Nx` the length is replaced by
`(writerSize + 1) * Nx - myStart`.  `Nx` is a constant of TestData.h, which is
not among the sources, and is taken as a parameter.  Arithmetic is over
unbounded naturals. -/
def readSelection (writerSize Nx mpiSize mpiRank : Nat) : Nat × Nat :=
  let myStart := (writerSize * Nx / mpiSize) * mpiRank
  let myLength := (writerSize * Nx + mpiSize - 1) / mpiSize
  if myStart + myLength > writerSize * Nx then
    (myStart, (writerSize + 1) * Nx - myStart)
  else
    (myStart, myLength)

/-- The `ExpectedStep` tables of the OnDemand branch of the test, by the
`first_step` of the reader (`switch (first_step)`, cases 0, 1 and 2). -/
def ExpectedStep : Nat → List Nat
  | 0 => [0, 4, 7, 10, 12, 15]
  | 1 => [1, 3, 5, 8, 11, 14, 17, 19]
  | 2 => [2, 6, 9, 13, 16, 18]
  | _ => []

/-- The value `total_steps` is expected to have after the loop in the OnDemand
branch of the test, by `first_step`; no expectation for other readers. -/
def onDemandTotalSteps : Nat → Option Nat
  | 0 => some 6
  | 1 => some 8
  | 2 => some 6
  | _ => none

/-- The value `total_steps` is expected to have after the loop in the
RoundRobin branch of the test: 4 when `first_step == 0`, else 3. -/
def roundRobinTotalSteps (first_step : Nat) : Nat :=
  if first_step = 0 then 4 else 3

/-! ## The RoundRobin distribution policy -/

/-- Modelled from the spec: the RoundRobin policy, "step k is delivered to
exactly one reader, `k mod readerCount`".  The policy is implemented on the
writer side of the staging engine, which is not among the sources. -/
def roundRobinReader (readerCount k : Nat) : Nat :=
  k % readerCount

/-- Modelled from the spec: the steps reader `r` observes under RoundRobin when
the writer produces the steps `0, ..., S-1`: those delivered to it, in
production order. -/
def roundRobinSteps (readerCount S r : Nat) : List Nat :=
  (List.range S).filter (fun k => roundRobinReader readerCount k = r)

/-! ## The compression operator -/

/-- Operator parameters and codec metrics: `Params`, a mapping of option names
to string values. -/
abbrev Params := List (String × String)

/-- Modelled from the spec: the failure of an operator call, "OperatorError
(codec compress/decompress failure, including unsupported data type or
malformed buffer)", the codec status attached as context.  The error type is
raised in CompressZFP.cpp, which is not among the sources. -/
inductive OperatorError where
  | unsupportedDataType
  | codecFailure (status : Int)
  | malformedBuffer
  deriving DecidableEq, Repr

/-- Modelled from the spec: what the operator of section 4.5 is built from.
`supported` is the set of element types the operator declares valid,
`codecCompress` and `codecDecompress` are the external codec, which reports
either a result or its native status code, and `sizeofType` is the byte size of
an element.  `DataType` is declared in ADIOSTypes.h, which is not among the
sources, and is a type parameter. -/
structure CompressZFP (DataType : Type) where
  supported : DataType → Bool
  sizeofType : DataType → Nat
  codecCompress : List Nat → List Nat → DataType → Params → Except Int (List Nat × Params)
  codecDecompress : List Nat → List Nat → DataType → Params → Except Int (List Nat)

namespace CompressZFP

/-- Modelled from the spec: `IsDataTypeValid(type)`, which "declares which
element types the operator supports".  Its body is in CompressZFP.cpp, which is
not among the sources. -/
def IsDataTypeValid {DataType : Type} (self : CompressZFP DataType) (type : DataType) : Bool :=
  self.supported type

/-- Modelled from the spec: `Compress(dataIn, blockStart, blockCount, type,
bufferOut, parameters, info)`.  Its body is in CompressZFP.cpp, which is not
among the sources.  A type that is not valid fails with an OperatorError, as
does a codec that reports a non-success status (the status is kept); otherwise
the compressed bytes are written to `bufferOut`, the codec metrics to `info`,
and the size of the compressed buffer is returned.  The result is the returned
size or the error, with the output buffer and `info` after the call. -/
def Compress {DataType : Type} (self : CompressZFP DataType) (dataIn : List Nat)
    (_blockStart blockCount : List Nat) (type : DataType) (bufferOut : List Nat)
    (parameters info : Params) : Except OperatorError Nat × List Nat × Params :=
  if self.IsDataTypeValid type then
    match self.codecCompress dataIn blockCount type parameters with
    | Except.ok (bytes, metrics) => (Except.ok bytes.length, bytes, metrics)
    | Except.error status => (Except.error (OperatorError.codecFailure status), bufferOut, info)
  else
    (Except.error OperatorError.unsupportedDataType, bufferOut, info)

/-- Modelled from the spec: `Decompress(bufferIn, sizeIn, dataOut, type,
blockStart, blockCount, parameters, info)`.  Its body is in CompressZFP.cpp,
which is not among the sources.  A type that is not valid, a truncated or
malformed input and a codec failure each fail with an OperatorError; otherwise
exactly `product(blockCount) * sizeof(type)` bytes are written to `dataOut` and
their number is returned. -/
def Decompress {DataType : Type} (self : CompressZFP DataType) (bufferIn : List Nat)
    (sizeIn : Nat) (dataOut : List Nat) (type : DataType) (_blockStart blockCount : List Nat)
    (parameters : Params) (info : Params) : Except OperatorError Nat × List Nat × Params :=
  if self.IsDataTypeValid type then
    if bufferIn.length < sizeIn then
      (Except.error OperatorError.malformedBuffer, dataOut, info)
    else
      match self.codecDecompress (bufferIn.take sizeIn) blockCount type parameters with
      | Except.ok data =>
        if data.length = blockCount.prod * self.sizeofType type then
          (Except.ok data.length, data, info)
        else
          (Except.error OperatorError.malformedBuffer, dataOut, info)
      | Except.error status =>
        (Except.error (OperatorError.codecFailure status), dataOut, info)
  else
    (Except.error OperatorError.unsupportedDataType, dataOut, info)

end CompressZFP

/-- A small operator over element types named by strings: it supports "double"
and "float" and stores the data unchanged. -/
def storeOperator : CompressZFP String :=
  { supported := fun t => t == "double" || t == "float"
    sizeofType := fun t => if t == "double" then 8 else 4
    codecCompress := fun dataIn _ _ _ => Except.ok (dataIn, [])
    codecDecompress := fun bufferIn _ _ _ => Except.ok bufferIn }

/-! ## Auxiliary facts -/

open SscReaderNaive

theorem wrapInt64_eq (x : Int) (h1 : -9223372036854775808 ≤ x) (h2 : x < 9223372036854775808) :
    wrapInt64 x = x := by
  unfold wrapInt64; omega

theorem toSizeT_eq (x : Int) (h1 : 0 ≤ x) (h2 : x < 18446744073709551616) :
    toSizeT x = x.toNat := by
  unfold toSizeT; rw [Int.emod_eq_of_lt h1 h2]

theorem observedSteps_stepPairs (ps : List StepArgs) :
    ∀ s : SscReaderNaive, -1 ≤ s.m_CurrentStep →
      s.m_CurrentStep + ps.length < 9223372036854775808 →
      observedSteps (s.run (stepPairs ps)).1 =
        List.range' (s.m_CurrentStep + 1).toNat ps.length := by
  induction ps with
  | nil => intro s _ _; rfl
  | cons a as ih =>
    intro s h1 h2
    simp only [List.length_cons, Nat.cast_add, Nat.cast_one] at h2
    have hw : wrapInt64 (s.m_CurrentStep + 1) = s.m_CurrentStep + 1 :=
      wrapInt64_eq _ (by omega) (by omega)
    have hs : toSizeT (s.m_CurrentStep + 1) = (s.m_CurrentStep + 1).toNat :=
      toSizeT_eq _ (by omega) (by omega)
    have := ih { s with m_CurrentStep := s.m_CurrentStep + 1 } (by simp; omega) (by simp; omega)
    simp only [stepPairs, SscReaderNaive.run, SscReaderNaive.call, BeginStep, CurrentStep, EndStep,
      observedSteps, hw, hs, List.length_cons, List.range'_succ]
    rw [this]
    congr 2
    simp; omega

theorem observedStatuses_stepPairs (ps : List StepArgs) :
    ∀ s : SscReaderNaive,
      observedStatuses (s.run (stepPairs ps)).1 = List.replicate ps.length StepStatus.OK := by
  induction ps with
  | nil => intro s; rfl
  | cons a as ih =>
    intro s
    simp only [stepPairs, SscReaderNaive.run, SscReaderNaive.call, observedStatuses,
      List.length_cons, List.replicate_succ, BeginStep, EndStep]
    rw [ih]

theorem stepsAfterBegin_increasing (cs : List Call) :
    ∀ s : SscReaderNaive, -1 ≤ s.m_CurrentStep →
      s.m_CurrentStep + beginCount cs < 9223372036854775808 →
      (stepsAfterBegin s cs).Pairwise (· < ·) ∧
        ∀ v ∈ stepsAfterBegin s cs, s.m_CurrentStep < (v : Int) := by
  induction cs with
  | nil => intro s _ _; simp [stepsAfterBegin]
  | cons c cs ih =>
    intro s h1 h2
    cases c with
    | BeginStep m t l =>
      simp only [beginCount, Nat.cast_add, Nat.cast_one] at h2
      have hw : wrapInt64 (s.m_CurrentStep + 1) = s.m_CurrentStep + 1 :=
        wrapInt64_eq _ (by omega) (by omega)
      have hs : toSizeT (s.m_CurrentStep + 1) = (s.m_CurrentStep + 1).toNat :=
        toSizeT_eq _ (by omega) (by omega)
      obtain ⟨ihp, ihv⟩ := ih { s with m_CurrentStep := s.m_CurrentStep + 1 }
        (by simp; omega) (by simp; omega)
      simp only [stepsAfterBegin, BeginStep, CurrentStep, hw, hs, List.pairwise_cons,
        List.mem_cons, forall_eq_or_imp]
      simp only at ihv
      refine ⟨⟨?_, ihp⟩, by omega, ?_⟩
      · intro v hv
        have := ihv v hv
        omega
      · intro v hv
        have := ihv v hv
        omega
    | CurrentStep => exact ih s h1 h2
    | PerformGets => exact ih s h1 h2
    | EndStep l => exact ih s h1 h2
    | Close i => exact ih s h1 h2

theorem readLoop_running (fuel : Nat) :
    ∀ (s : SscReaderNaive) (n : Nat), readLoop fuel s n = none := by
  induction fuel with
  | zero => intro s n; rfl
  | succ k ih =>
    intro s n
    simp only [readLoop, BeginStep, if_true]
    exact ih _ _

theorem floor_mul_add_ceil_le (W m r : Nat) (hm : 1 ≤ m) (hr : r < m) :
    W / m * r + (W + m - 1) / m ≤ W := by
  have hdm := Nat.div_add_mod W m
  have hlt := Nat.mod_lt W (show 0 < m by omega)
  have h1 : W / m * r ≤ W / m * (m - 1) := Nat.mul_le_mul_left _ (by omega)
  have h2 : W / m * (m - 1) + W / m = m * (W / m) := by
    obtain ⟨j, rfl⟩ : ∃ j, m = j + 1 := ⟨m - 1, by omega⟩
    simp only [Nat.add_sub_cancel]
    ring
  have h3 : (W + m - 1) / m ≤ W / m + W % m := by
    rw [Nat.div_le_iff_le_mul_add_pred (by omega)]
    have : m * (W / m + W % m) = m * (W / m) + m * (W % m) := by ring
    have h4 : W % m ≤ m * (W % m) := Nat.le_mul_of_pos_left _ (by omega)
    omega
  omega

theorem ceil_eq_floor_succ (S R : Nat) (hR : 0 < R) (h : 0 < S % R) :
    (S + R - 1) / R = S / R + 1 := by
  have hdm := Nat.div_add_mod S R
  have hlt := Nat.mod_lt S hR
  apply Nat.div_eq_of_lt_le
  · have : (S / R + 1) * R = R * (S / R) + R := by ring
    omega
  · have : (S / R + 1 + 1) * R = R * (S / R) + R + R := by ring
    omega

theorem mem_roundRobinSteps (R S r k : Nat) :
    k ∈ roundRobinSteps R S r ↔ k < S ∧ k % R = r := by
  simp [roundRobinSteps, roundRobinReader]

theorem roundRobinSteps_length (R S r : Nat) (hR : 0 < R) (hr : r < R) :
    (roundRobinSteps R S r).length = S / R + if r < S % R then 1 else 0 := by
  have h := @Nat.count_modEq_card S R hR r
  rw [Nat.mod_eq_of_lt hr] at h
  rw [← h, Nat.count, List.countP_eq_length_filter, roundRobinSteps]
  congr 1
  apply List.filter_congr
  intro k _
  simp [roundRobinReader, Nat.ModEq, Nat.mod_eq_of_lt hr]

/-! ## The step counter of the naive reader -/

/-- Claim C1: on a freshly opened naive reader, for every sequence of
BeginStep/EndStep pairs (any arguments) that the 64-bit step counter can count,
the CurrentStep() values observed inside the steps are 0, 1, 2, ..., n-1: the
value observed inside the k-th step is k-1. -/
theorem default_steps_observed (ps : List StepArgs)
    (hn : ps.length ≤ 9223372036854775808) :
    observedSteps (fresh.run (stepPairs ps)).1 = List.range ps.length ∧
    ∀ k, 1 ≤ k → k ≤ ps.length →
      (observedSteps (fresh.run (stepPairs ps)).1)[k - 1]? = some (k - 1) := by
  have h : observedSteps (fresh.run (stepPairs ps)).1 = List.range ps.length := by
    have := observedSteps_stepPairs ps fresh (by decide) (by simp [fresh]; omega)
    rw [this, List.range_eq_range']
    rfl
  refine ⟨h, ?_⟩
  intro k hk1 hk2
  rw [h, List.getElem?_range (by omega)]

/-- Three steps on a fresh reader are observed as 0, 1, 2. -/
theorem default_steps_observed_witness :
    [defaultStep, defaultStep, defaultStep].length ≤ 9223372036854775808 ∧
    observedSteps (fresh.run (stepPairs [defaultStep, defaultStep, defaultStep])).1 =
      List.range [defaultStep, defaultStep, defaultStep].length :=
  ⟨by decide, (default_steps_observed [defaultStep, defaultStep, defaultStep] (by decide)).1⟩

/-- Claim C2, evaluated on the code: the naive reader never reports the end of
the stream.  Whatever the number S of steps the writer produced, the first S+1
BeginStep calls of the test all return OK, call S+1 included, and the read loop
of the test is still running after any number of iterations. -/
theorem beginStep_never_ends_stream (S : Nat) :
    observedStatuses (fresh.run (stepPairs (List.replicate (S + 1) defaultStep))).1 =
      List.replicate (S + 1) StepStatus.OK ∧
    (observedStatuses (fresh.run (stepPairs (List.replicate (S + 1) defaultStep))).1)[S]? =
      some StepStatus.OK ∧
    ∀ fuel, readLoop fuel fresh 0 = none := by
  have h := observedStatuses_stepPairs (List.replicate (S + 1) defaultStep) fresh
  rw [List.length_replicate] at h
  refine ⟨h, ?_, fun fuel => readLoop_running fuel fresh 0⟩
  rw [h]
  simp

/-- Claim C4: for every call sequence on a reader (BeginStep with any
arguments, interleaved with CurrentStep, PerformGets, EndStep and Close) whose
BeginStep calls the 64-bit counter can count, the CurrentStep() values after
the successive BeginStep calls are strictly increasing, hence non-decreasing
and never observed twice; EndStep, PerformGets and Close leave CurrentStep
unchanged in every state. -/
theorem currentStep_never_reused (cs : List Call)
    (hn : beginCount cs ≤ 9223372036854775808) :
    (stepsAfterBegin fresh cs).Pairwise (· < ·) ∧
    (stepsAfterBegin fresh cs).Pairwise (· ≤ ·) ∧
    (stepsAfterBegin fresh cs).Nodup ∧
    (∀ (s : SscReaderNaive) (l : Bool), (s.EndStep l).CurrentStep = s.CurrentStep) ∧
    (∀ s : SscReaderNaive, s.PerformGets.CurrentStep = s.CurrentStep) ∧
    (∀ (s : SscReaderNaive) (i : Int), (s.Close i).CurrentStep = s.CurrentStep) := by
  have h := (stepsAfterBegin_increasing cs fresh (by decide) (by simp [fresh]; omega)).1
  refine ⟨h, h.imp (fun hab => Nat.le_of_lt hab), h.imp (fun hab => Nat.ne_of_lt hab),
    fun _ _ => rfl, fun _ => rfl, fun _ _ => rfl⟩

/-- A call sequence with three BeginStep calls, of different arguments, and
every other call in between. -/
theorem currentStep_never_reused_witness :
    beginCount [Call.BeginStep StepMode.Read (-1.0) false, Call.CurrentStep, Call.PerformGets,
      Call.BeginStep StepMode.Append 0.0 true, Call.EndStep true, Call.Close 0,
      Call.BeginStep StepMode.Update 2.5 false] ≤ 9223372036854775808 ∧
    (stepsAfterBegin fresh [Call.BeginStep StepMode.Read (-1.0) false, Call.CurrentStep,
      Call.PerformGets, Call.BeginStep StepMode.Append 0.0 true, Call.EndStep true, Call.Close 0,
      Call.BeginStep StepMode.Update 2.5 false]).Pairwise (· < ·) :=
  ⟨by decide, (currentStep_never_reused _ (by decide)).1⟩

/-- Claim C8: in every engine state with an active step and an empty deferred
queue, PerformGets leaves the state unchanged: the step stays active, the
current step and the empty queue are kept, and a second PerformGets changes
nothing either. -/
theorem performGets_keeps_step (s : SscReaderNaive) (p : Phase)
    (hactive : p = Phase.StepActive) (hempty : s.m_Deferred = []) :
    s.PerformGets = s ∧
    p.next Call.PerformGets (s.call Call.PerformGets).1 = Phase.StepActive ∧
    s.PerformGets.CurrentStep = s.CurrentStep ∧
    s.PerformGets.m_Deferred = [] ∧
    s.PerformGets.PerformGets = s.PerformGets ∧
    (s.run [Call.PerformGets, Call.PerformGets]).2 = (s.run [Call.PerformGets]).2 := by
  subst hactive
  exact ⟨rfl, rfl, rfl, hempty, rfl, rfl⟩

/-- The state inside the first step of a fresh reader. -/
theorem performGets_keeps_step_witness :
    Phase.StepActive = Phase.StepActive ∧
    (fresh.BeginStep StepMode.Read (-1.0) false).2.m_Deferred = [] ∧
    (fresh.BeginStep StepMode.Read (-1.0) false).2.PerformGets =
      (fresh.BeginStep StepMode.Read (-1.0) false).2 :=
  ⟨rfl, rfl,
    (performGets_keeps_step (fresh.BeginStep StepMode.Read (-1.0) false).2 Phase.StepActive
      rfl rfl).1⟩

/-! ## The distribution policies -/

/-- Claim C6: under RoundRobin with R >= 1 readers and S produced steps, step
k < S is delivered to exactly the reader k mod R; reader r observes exactly the
steps k < S with k mod R = r, in increasing order; their number is floor(S/R)
or ceil(S/R); the observed sets of two readers are disjoint and together they
are exactly the steps below S.  For S = 10 and R = 3 every reader observes the
number of steps the test expects: 4 when its first step is 0, else 3. -/
theorem roundRobin_partition (R S : Nat) (hR : 1 ≤ R) :
    (∀ k, k < S → ∀ r, r < R → (k ∈ roundRobinSteps R S r ↔ r = roundRobinReader R k)) ∧
    (∀ r, r < R → ∀ k, k ∈ roundRobinSteps R S r ↔ k < S ∧ k % R = r) ∧
    (∀ r, r < R → (roundRobinSteps R S r).Pairwise (· < ·)) ∧
    (∀ r, r < R → ((roundRobinSteps R S r).length = S / R ∨
      (roundRobinSteps R S r).length = (S + R - 1) / R)) ∧
    (∀ r r2, r ≠ r2 → List.Disjoint (roundRobinSteps R S r) (roundRobinSteps R S r2)) ∧
    (∀ k, k < S ↔ ∃ r, r < R ∧ k ∈ roundRobinSteps R S r) ∧
    (R = 3 → S = 10 → ∀ r, r < R →
      (roundRobinSteps R S r).length =
        roundRobinTotalSteps ((roundRobinSteps R S r).headD 0)) := by
  refine ⟨?_, ?_, ?_, ?_, ?_, ?_, ?_⟩
  · intro k hk r _
    rw [mem_roundRobinSteps]
    simp only [roundRobinReader]
    constructor
    · intro h; exact h.2.symm
    · intro h; exact ⟨hk, h.symm⟩
  · intro r _ k
    exact mem_roundRobinSteps R S r k
  · intro r _
    exact List.Pairwise.filter _ (List.pairwise_lt_range S)
  · intro r hr
    rw [roundRobinSteps_length R S r (by omega) hr]
    by_cases h : r < S % R
    · right
      rw [if_pos h, ceil_eq_floor_succ S R (by omega) (by omega)]
    · left
      rw [if_neg h]
      rfl
  · intro r r2 hne k h1 h2
    rw [mem_roundRobinSteps] at h1 h2
    exact hne (h1.2.symm.trans h2.2)
  · intro k
    constructor
    · intro hk
      exact ⟨k % R, Nat.mod_lt _ (by omega), (mem_roundRobinSteps R S _ k).2 ⟨hk, rfl⟩⟩
    · rintro ⟨r, _, h⟩
      exact ((mem_roundRobinSteps R S r k).1 h).1
  · rintro rfl rfl r hr
    interval_cases r <;> decide

/-- Ten steps over three readers: the readers observe 0,3,6,9 and 1,4,7 and
2,5,8. -/
theorem roundRobin_partition_witness :
    1 ≤ 3 ∧
    (roundRobinSteps 3 10 0 = [0, 3, 6, 9] ∧ roundRobinSteps 3 10 1 = [1, 4, 7] ∧
      roundRobinSteps 3 10 2 = [2, 5, 8]) ∧
    ((roundRobinSteps 3 10 1).length = 10 / 3 ∨
      (roundRobinSteps 3 10 1).length = (10 + 3 - 1) / 3) :=
  ⟨by decide, by decide, (roundRobin_partition 3 10 (by decide)).2.2.2.1 1 (by decide)⟩

/-- Claim C7: the three ExpectedStep tables of the OnDemand branch of the test
are each strictly increasing and pairwise disjoint, together they contain every
step of 0..19 exactly once and nothing else, and the expected total number of
steps of each reader (6, 8, 6) is the length of its table. -/
theorem onDemand_tables_partition :
    (ExpectedStep 0).Pairwise (· < ·) ∧ (ExpectedStep 1).Pairwise (· < ·) ∧
    (ExpectedStep 2).Pairwise (· < ·) ∧
    List.Disjoint (ExpectedStep 0) (ExpectedStep 1) ∧
    List.Disjoint (ExpectedStep 0) (ExpectedStep 2) ∧
    List.Disjoint (ExpectedStep 1) (ExpectedStep 2) ∧
    (∀ k, k < 20 → List.count k (ExpectedStep 0 ++ ExpectedStep 1 ++ ExpectedStep 2) = 1) ∧
    (∀ k, k ∈ ExpectedStep 0 ++ ExpectedStep 1 ++ ExpectedStep 2 → k < 20) ∧
    onDemandTotalSteps 0 = some (ExpectedStep 0).length ∧
    onDemandTotalSteps 1 = some (ExpectedStep 1).length ∧
    onDemandTotalSteps 2 = some (ExpectedStep 2).length := by
  refine ⟨by decide, by decide, by decide, by simp [List.Disjoint, ExpectedStep],
    by simp [List.Disjoint, ExpectedStep], by simp [List.Disjoint, ExpectedStep], by decide, ?_,
    by decide, by decide, by decide⟩
  intro k hk
  simp [ExpectedStep] at hk
  omega

/-! ## The compression operator -/

/-- Claim C9: for every data type for which IsDataTypeValid returns false,
every Compress call and every Decompress call with that type fails with an
OperatorError: no size is returned and the output buffer is left as it was. -/
theorem invalid_type_fails {DataType : Type} (op : CompressZFP DataType) (type : DataType)
    (hinvalid : op.IsDataTypeValid type = false) :
    (∀ (dataIn blockStart blockCount bufferOut : List Nat) (parameters info : Params),
      op.Compress dataIn blockStart blockCount type bufferOut parameters info =
        (Except.error OperatorError.unsupportedDataType, bufferOut, info)) ∧
    (∀ (bufferIn : List Nat) (sizeIn : Nat) (dataOut blockStart blockCount : List Nat)
      (parameters info : Params),
      op.Decompress bufferIn sizeIn dataOut type blockStart blockCount parameters info =
        (Except.error OperatorError.unsupportedDataType, dataOut, info)) := by
  constructor
  · intro dataIn blockStart blockCount bufferOut parameters info
    simp [CompressZFP.Compress, hinvalid]
  · intro bufferIn sizeIn dataOut blockStart blockCount parameters info
    simp [CompressZFP.Decompress, hinvalid]

/-- The operator that supports "double" and "float" turns down "string". -/
theorem invalid_type_fails_witness :
    storeOperator.IsDataTypeValid "string" = false ∧
    storeOperator.Compress [1, 2, 3] [0] [3] "string" [9, 9] [] [] =
      (Except.error OperatorError.unsupportedDataType, [9, 9], []) :=
  ⟨by decide, (invalid_type_fails storeOperator "string" (by decide)).1 [1, 2, 3] [0] [3] [9, 9] [] []⟩

/-! ## The selection of the read test -/

/-- Claim C10: for every writerSize and Nx (total length W = writerSize * Nx),
every mpiSize >= 1 and every mpiRank < mpiSize, over unbounded naturals,
myStart + myLength <= W, so the clamping branch is not taken and the selection
is the unclamped pair, inside the array; the assignment of the branch would
make start + count exceed W whenever Nx > 0. -/
theorem selection_inside_array (writerSize Nx mpiSize mpiRank : Nat) (hsize : 1 ≤ mpiSize)
    (hrank : mpiRank < mpiSize) :
    (writerSize * Nx / mpiSize) * mpiRank + (writerSize * Nx + mpiSize - 1) / mpiSize
        ≤ writerSize * Nx ∧
    readSelection writerSize Nx mpiSize mpiRank =
      ((writerSize * Nx / mpiSize) * mpiRank, (writerSize * Nx + mpiSize - 1) / mpiSize) ∧
    (readSelection writerSize Nx mpiSize mpiRank).1 +
        (readSelection writerSize Nx mpiSize mpiRank).2 ≤ writerSize * Nx ∧
    (0 < Nx → writerSize * Nx <
      (writerSize * Nx / mpiSize) * mpiRank +
        ((writerSize + 1) * Nx - (writerSize * Nx / mpiSize) * mpiRank)) := by
  have h := floor_mul_add_ceil_le (writerSize * Nx) mpiSize mpiRank hsize hrank
  have hsel : readSelection writerSize Nx mpiSize mpiRank =
      ((writerSize * Nx / mpiSize) * mpiRank, (writerSize * Nx + mpiSize - 1) / mpiSize) := by
    unfold readSelection
    simp only
    rw [if_neg (by omega)]
  refine ⟨h, hsel, ?_, ?_⟩
  · rw [hsel]; exact h
  · intro hNx
    have : (writerSize + 1) * Nx = writerSize * Nx + Nx := by ring
    omega

/-- Two writers of ten elements read by the last of three ranks. -/
theorem selection_inside_array_witness :
    1 ≤ 3 ∧ 2 < 3 ∧
    (2 * 10 / 3) * 2 + (2 * 10 + 3 - 1) / 3 ≤ 2 * 10 ∧
    readSelection 2 10 3 2 = ((2 * 10 / 3) * 2, (2 * 10 + 3 - 1) / 3) :=
  ⟨by decide, by decide,
    (selection_inside_array 2 10 3 2 (by decide) (by decide)).1,
    (selection_inside_array 2 10 3 2 (by decide) (by decide)).2.1⟩

end adios2
